import Mathlib

/-!
# Verification of the webcomic scraper core (src/comic-scraper.js)

Shallow embedding of the scraper userscript: the base64 bridge used for
session-storage caching, the text-wrapping layout engine, the page
compositor, adapter resolution with default-merging, the traversal
controller (processPage / startArchival and the cross-navigation loop),
and the archive drain loop of generateCBZ.

Conventions:
- JS numbers that the program only ever uses as integers are modelled as
  Int (pixel sizes, page budgets) or Nat (byte and character-code values).
- Byte sequences and strings of raw char codes are List Nat.
- JS falsy string results (undefined or the empty string) are modelled as
  Option String, with some "" still treated as falsy where the source
  tests truthiness.
- The DOM is modelled as functions of the current URL: each adapter
  capability (pageNumber, nextPageURL, imageURL, topText, bottomText)
  becomes a function String -> result.
-/

namespace ComicScraper

/-! ## Base64 bridge (src/comic-scraper.js lines 145-166)

blobToBase64 delegates to FileReader.readAsDataURL, which yields
"data:<type>;base64,<standard RFC 4648 base64 of the bytes>", and the
source keeps split(",")[1].  base64ToBlob applies atob and re-chunks the
decoded character codes into 512-byte slices that are concatenated into a
Blob.  The environment primitives (FileReader base64 encoding, atob) are
modelled by standard padded base64 over char codes. -/

/-- RFC 4648 base64 alphabet, as a char code (the encoding used by
FileReader.readAsDataURL). -/
def b64CharCode (n : Nat) : Nat :=
  if n < 26 then 65 + n
  else if n < 52 then 97 + (n - 26)
  else if n < 62 then 48 + (n - 52)
  else if n = 62 then 43
  else 47

/-- Value of a base64 alphabet char code (the decoding used by atob). -/
def b64Value (c : Nat) : Nat :=
  if c = 43 then 62
  else if c = 47 then 63
  else if 97 ≤ c then 26 + (c - 97)
  else if 65 ≤ c then c - 65
  else 52 + (c - 48)

/-- Standard padded base64 encoding of a byte list, as char codes
(61 is the code of the padding char). -/
def b64encode : List Nat → List Nat
  | [] => []
  | [b1] => [b64CharCode (b1 / 4), b64CharCode (b1 % 4 * 16), 61, 61]
  | [b1, b2] =>
      [b64CharCode (b1 / 4), b64CharCode (b1 % 4 * 16 + b2 / 16),
       b64CharCode (b2 % 16 * 4), 61]
  | b1 :: b2 :: b3 :: rest =>
      b64CharCode (b1 / 4) :: b64CharCode (b1 % 4 * 16 + b2 / 16) ::
      b64CharCode (b2 % 16 * 4 + b3 / 64) :: b64CharCode (b3 % 64) ::
      b64encode rest

/-- atob on well-formed padded base64 (which encoder output always is):
each 4-char group yields 3 bytes, with the final group yielding 1 or 2
bytes according to its padding. -/
def atobBytes : List Nat → List Nat
  | c1 :: c2 :: c3 :: c4 :: rest =>
      if c3 = 61 then [b64Value c1 * 4 + b64Value c2 / 16]
      else if c4 = 61 then
        [b64Value c1 * 4 + b64Value c2 / 16,
         b64Value c2 % 16 * 16 + b64Value c3 / 4]
      else
        (b64Value c1 * 4 + b64Value c2 / 16) ::
        (b64Value c2 % 16 * 16 + b64Value c3 / 4) ::
        (b64Value c3 % 4 * 64 + b64Value c4) :: atobBytes rest
  | _ => []

/-- The 512-wide slicing loop of base64ToBlob (lines 157-164): `fuel`
bounds the iterations of the `i += 512` loop and is instantiated with the
input length, which the loop never exceeds. -/
def sliceChunks : Nat → List Nat → List (List Nat)
  | 0, _ => []
  | _, [] => []
  | fuel + 1, l => l.take 512 :: sliceChunks fuel (l.drop 512)

/-- base64ToBlob (lines 154-166): atob, slice into 512-byte chunks, and
concatenate the chunks into the resulting blob content.  The `type`
argument of the source only tags the blob and does not affect content. -/
def base64ToBlob (b64 : List Nat) : List Nat :=
  ((sliceChunks (atobBytes b64).length (atobBytes b64))).flatten

/-- JS String.prototype.split on a single-character separator, over char
codes: splitting never drops empty parts. -/
def jsSplit (sep : Nat) : List Nat → List (List Nat)
  | [] => [[]]
  | c :: rest =>
      if c = sep then [] :: jsSplit sep rest
      else
        match jsSplit sep rest with
        | [] => [[c]]
        | h :: t => (c :: h) :: t

/-- Char codes of the string "data:". -/
def dataUrlHead : List Nat := [100, 97, 116, 97, 58]

/-- Char codes of the string ";base64," (the comma 44 terminates the
dataURL header). -/
def base64Header : List Nat := [59, 98, 97, 115, 101, 54, 52, 44]

/-- blobToBase64 (lines 145-152): FileReader.readAsDataURL produces
"data:<type>;base64,<base64>", and the source keeps split(",")[1].
A blob is modelled as its byte content plus its MIME type char codes. -/
def blobToBase64 (bytes : List Nat) (btype : List Nat) : List Nat :=
  let dataURL := dataUrlHead ++ btype ++ base64Header ++ b64encode bytes
  (jsSplit 44 dataURL).getD 1 []

theorem b64Value_b64CharCode : ∀ n < 64, b64Value (b64CharCode n) = n := by
  decide

theorem b64CharCode_ne_61 (n : Nat) : b64CharCode n ≠ 61 := by
  unfold b64CharCode
  split <;> [omega; split <;> [omega; split <;> [omega; split <;> omega]]]

theorem b64CharCode_ne_44 (n : Nat) : b64CharCode n ≠ 44 := by
  unfold b64CharCode
  split <;> [omega; split <;> [omega; split <;> [omega; split <;> omega]]]

/-- Decoding inverts encoding on byte lists. -/
theorem atobBytes_b64encode :
    ∀ bs : List Nat, (∀ b ∈ bs, b < 256) → atobBytes (b64encode bs) = bs
  | [], _ => rfl
  | [b1], h => by
      have hb1 : b1 < 256 := h b1 (by simp)
      have e1 : b64Value (b64CharCode (b1 / 4)) = b1 / 4 :=
        b64Value_b64CharCode _ (by omega)
      have e2 : b64Value (b64CharCode (b1 % 4 * 16)) = b1 % 4 * 16 :=
        b64Value_b64CharCode _ (by omega)
      have e3 : b1 % 4 * 16 / 16 = b1 % 4 := Nat.mul_div_cancel _ (by norm_num)
      simp only [b64encode, atobBytes, if_pos rfl, if_true, e1, e2,
        List.cons.injEq, and_true]
      omega
  | [b1, b2], h => by
      have hb1 : b1 < 256 := h b1 (by simp)
      have hb2 : b2 < 256 := h b2 (by simp)
      have e1 : b64Value (b64CharCode (b1 / 4)) = b1 / 4 :=
        b64Value_b64CharCode _ (by omega)
      have e2 : b64Value (b64CharCode (b1 % 4 * 16 + b2 / 16)) =
          b1 % 4 * 16 + b2 / 16 :=
        b64Value_b64CharCode _ (by omega)
      have e3 : b64Value (b64CharCode (b2 % 16 * 4)) = b2 % 16 * 4 :=
        b64Value_b64CharCode _ (by omega)
      simp only [b64encode, atobBytes, if_neg (b64CharCode_ne_61 _),
        if_pos rfl, e1, e2, e3, if_true, List.cons.injEq, and_true]
      exact ⟨by omega, by omega⟩
  | b1 :: b2 :: b3 :: rest, h => by
      have hb1 : b1 < 256 := h b1 (by simp)
      have hb2 : b2 < 256 := h b2 (by simp)
      have hb3 : b3 < 256 := h b3 (by simp)
      have e1 : b64Value (b64CharCode (b1 / 4)) = b1 / 4 :=
        b64Value_b64CharCode _ (by omega)
      have e2 : b64Value (b64CharCode (b1 % 4 * 16 + b2 / 16)) =
          b1 % 4 * 16 + b2 / 16 :=
        b64Value_b64CharCode _ (by omega)
      have e3 : b64Value (b64CharCode (b2 % 16 * 4 + b3 / 64)) =
          b2 % 16 * 4 + b3 / 64 :=
        b64Value_b64CharCode _ (by omega)
      have e4 : b64Value (b64CharCode (b3 % 64)) = b3 % 64 :=
        b64Value_b64CharCode _ (by omega)
      have ih := atobBytes_b64encode rest (fun b hb => h b (by simp [hb]))
      simp only [b64encode, atobBytes, if_neg (b64CharCode_ne_61 _),
        e1, e2, e3, e4, ih, List.cons.injEq, and_true, and_self,
        eq_self_iff_true]
      exact ⟨by omega, by omega, by omega⟩

theorem sliceChunks_flatten :
    ∀ (n : Nat) (l : List Nat), l.length ≤ n → (sliceChunks n l).flatten = l := by
  intro n
  induction n with
  | zero =>
      intro l hl
      have : l = [] := List.eq_nil_of_length_eq_zero (by omega)
      simp [this, sliceChunks]
  | succ n ih =>
      intro l hl
      match l with
      | [] => simp [sliceChunks]
      | c :: rest =>
          simp only [sliceChunks, List.flatten_cons]
          rw [ih ((c :: rest).drop 512)
            (by rw [List.length_drop]; simp only [List.length_cons] at hl ⊢; omega)]
          exact List.take_append_drop 512 (c :: rest)

theorem mem_b64encode_ne_44 :
    ∀ (bs : List Nat), ∀ c ∈ b64encode bs, c ≠ 44
  | [] => by simp [b64encode]
  | [b1] => by
      simp only [b64encode, List.mem_cons, List.not_mem_nil, or_false]
      rintro c (rfl | rfl | rfl | rfl)
      · exact b64CharCode_ne_44 _
      · exact b64CharCode_ne_44 _
      · omega
      · omega
  | [b1, b2] => by
      simp only [b64encode, List.mem_cons, List.not_mem_nil, or_false]
      rintro c (rfl | rfl | rfl | rfl)
      · exact b64CharCode_ne_44 _
      · exact b64CharCode_ne_44 _
      · exact b64CharCode_ne_44 _
      · omega
  | b1 :: b2 :: b3 :: rest => by
      simp only [b64encode, List.mem_cons]
      rintro c (rfl | rfl | rfl | rfl | hc)
      · exact b64CharCode_ne_44 _
      · exact b64CharCode_ne_44 _
      · exact b64CharCode_ne_44 _
      · exact b64CharCode_ne_44 _
      · exact mem_b64encode_ne_44 rest c hc

theorem jsSplit_of_not_mem {sep : Nat} :
    ∀ (l : List Nat), sep ∉ l → jsSplit sep l = [l] := by
  intro l
  induction l with
  | nil => intro _; rfl
  | cons c rest ih =>
      intro h
      have hc : c ≠ sep := fun hcc => h (by simp [hcc])
      have hrest : sep ∉ rest := fun hr => h (by simp [hr])
      simp [jsSplit, hc, ih hrest]

theorem jsSplit_append {sep : Nat} :
    ∀ (p s : List Nat), sep ∉ p →
      jsSplit sep (p ++ sep :: s) = p :: jsSplit sep s := by
  intro p
  induction p with
  | nil => intro s _; simp [jsSplit]
  | cons c rest ih =>
      intro s h
      have hc : c ≠ sep := fun hcc => h (by simp [hcc])
      have hrest : sep ∉ rest := fun hr => h (by simp [hr])
      have hm := ih s hrest
      simp only [List.cons_append, jsSplit, if_neg hc, List.append_eq, hm]

/-- blobToBase64 extracts exactly the base64 payload whenever the MIME
type contains no comma. -/
theorem blobToBase64_eq (bytes btype : List Nat) (ht : 44 ∉ btype) :
    blobToBase64 bytes btype = b64encode bytes := by
  show (jsSplit 44 (dataUrlHead ++ btype ++ base64Header ++ b64encode bytes)).getD 1 [] =
    b64encode bytes
  have hpre : (44 : Nat) ∉
      dataUrlHead ++ btype ++ [59, 98, 97, 115, 101, 54, 52] := by
    intro hmem
    rcases List.mem_append.mp hmem with hmem2 | hmem2
    · rcases List.mem_append.mp hmem2 with hmem3 | hmem3
      · simp [dataUrlHead] at hmem3
      · exact ht hmem3
    · simp at hmem2
  have hshape :
      dataUrlHead ++ btype ++ base64Header ++ b64encode bytes =
      (dataUrlHead ++ btype ++ [59, 98, 97, 115, 101, 54, 52]) ++
        44 :: b64encode bytes := by
    simp [base64Header, dataUrlHead]
  rw [hshape, jsSplit_append _ _ hpre,
    jsSplit_of_not_mem _ (fun hc => mem_b64encode_ne_44 bytes 44 hc rfl)]
  rfl

/-! ## Text layout engine (src/comic-scraper.js lines 34-59 and 168-214)

createWrappedTextCanvas receives the merged text-block parameters, splits
the text on newlines, greedily wraps each paragraph against
maxWidth - paddingLeft - paddingRight using ctx.measureText under the
composed font, and computes the total raster height.  The canvas
2D context is modelled by a measure function (font, text) -> width; the
per-line fillText drawing (source lines 204-212) is pure rendering with
no bearing on the layout results and carries no further model state. -/

/-- One resolved text block: the result of merging a config text entry
with defaultTextParams (source lines 34-59). -/
structure TextSpec where
  text : String
  paddingTop : Int
  paddingBottom : Int
  paddingLeft : Int
  paddingRight : Int
  textAlign : String
  fontStyle : String
  fontVariant : String
  fontWeight : String
  fontStretch : String
  fontSize : Int
  lineHeight : Int
  fontFamily : String
  fillStyle : String
deriving DecidableEq

/-- A text block as written in an adapter config, before default-merging:
absent fields are none.  lodash defaults fills exactly the absent
fields. -/
structure TextSpecJS where
  text : Option String := none
  paddingTop : Option Int := none
  paddingBottom : Option Int := none
  paddingLeft : Option Int := none
  paddingRight : Option Int := none
  textAlign : Option String := none
  fontStyle : Option String := none
  fontVariant : Option String := none
  fontWeight : Option String := none
  fontStretch : Option String := none
  fontSize : Option Int := none
  lineHeight : Option Int := none
  fontFamily : Option String := none
  fillStyle : Option String := none
deriving DecidableEq

/-- lodash defaults of a text block against defaultTextParams (source
lines 34-59): each absent field receives the documented fallback. -/
def jsDefaultsText (s : TextSpecJS) : TextSpec where
  text := s.text.getD ""
  paddingTop := s.paddingTop.getD 5
  paddingBottom := s.paddingBottom.getD 5
  paddingLeft := s.paddingLeft.getD 5
  paddingRight := s.paddingRight.getD 5
  textAlign := s.textAlign.getD "center"
  fontStyle := s.fontStyle.getD ""
  fontVariant := s.fontVariant.getD ""
  fontWeight := s.fontWeight.getD ""
  fontStretch := s.fontStretch.getD ""
  fontSize := s.fontSize.getD 18
  lineHeight := s.lineHeight.getD 20
  fontFamily := s.fontFamily.getD "Arial"
  fillStyle := s.fillStyle.getD "#000000"

/-- The font shorthand composed at source line 172 (fontVariant really
does appear twice there). -/
def fullFont (s : TextSpec) : String :=
  s.fontStyle ++ " " ++ s.fontVariant ++ " " ++ s.fontWeight ++ " " ++
    toString s.fontSize ++ "px " ++ s.fontVariant ++ " " ++ s.fontStretch ++
    " " ++ s.fontFamily

/-- testLine construction at source line 184:
line + (line ? " " : "") + word. -/
def joinWord (line w : String) : String :=
  line ++ (if line ≠ "" then " " else "") ++ w

/-- The inner word loop of createWrappedTextCanvas (lines 183-193): on
overflow of a non-empty line, commit it and restart from the overflowing
word; after the loop the last line of the paragraph is pushed. -/
def wrapPara (measure : String → Int) (usable : Int) :
    List String → String → List String
  | [], line => [line]
  | w :: ws, line =>
      let testLine := joinWord line w
      if measure testLine > usable ∧ line ≠ "" then
        line :: wrapPara measure usable ws w
      else
        wrapPara measure usable ws testLine

/-- Result of createWrappedTextCanvas: the wrapped lines, the computed
total height, and the canvas dimensions set at lines 200-201. -/
structure WrapResult where
  lines : List String
  totalHeight : Int
  canvasWidth : Int
  canvasHeight : Int
deriving DecidableEq

/-- createWrappedTextCanvas (lines 168-214): measureFont is
ctx.measureText as a function of the font set on the context. -/
def createWrappedTextCanvas (measureFont : String → String → Int)
    (maxWidth : Int) (s : TextSpec) : WrapResult :=
  let measure := measureFont (fullFont s)
  let usableWidth := maxWidth - s.paddingLeft - s.paddingRight
  let paragraphs := s.text.splitOn "\n"
  let wrappedLines :=
    (paragraphs.map (fun p => wrapPara measure usableWidth (p.splitOn " ") "")).flatten
  let totalHeight := (wrappedLines.length : Int) * s.lineHeight + s.lineHeight
    - s.fontSize + s.paddingTop + s.paddingBottom
  { lines := wrappedLines, totalHeight := totalHeight,
    canvasWidth := maxWidth, canvasHeight := totalHeight }

/-- One step of the greedy packing described by the specification: keep
packing words while the measured width of the extended line does not
exceed the usable width; on overflow of a non-empty line, count the
committed line and start over from the overflowing word (a single word
wider than the usable width is left as one overflowing line). -/
def packStep (measure : String → Int) (usable : Int)
    (acc : Nat × String) (w : String) : Nat × String :=
  let candidate := joinWord acc.2 w
  if acc.2 ≠ "" ∧ measure candidate > usable then (acc.1 + 1, w)
  else (acc.1, candidate)

/-- Line count according to the specification text: split on explicit
newlines (paragraphs never merged), greedily pack each paragraph, and
count one final committed line per paragraph. -/
def specLineCount (measure : String → Int) (usable : Int)
    (text : String) : Nat :=
  ((text.splitOn "\n").map (fun para =>
    ((para.splitOn " ").foldl (packStep measure usable) (0, "")).1 + 1)).sum

theorem packStep_foldl (measure : String → Int) (usable : Int) :
    ∀ (ws : List String) (line : String) (n : Nat),
      (ws.foldl (packStep measure usable) (n, line)).1 + 1 =
        n + (wrapPara measure usable ws line).length := by
  intro ws
  induction ws with
  | nil => intro line n; simp [wrapPara]
  | cons w ws ih =>
      intro line n
      by_cases hc : measure (joinWord line w) > usable ∧ line ≠ ""
      · simp only [List.foldl_cons, packStep, wrapPara]
        rw [if_pos ⟨hc.2, hc.1⟩, if_pos hc]
        simp only [List.length_cons]
        have := ih w (n + 1)
        omega
      · simp only [List.foldl_cons, packStep, wrapPara]
        rw [if_neg (fun h => hc ⟨h.2, h.1⟩), if_neg hc]
        exact ih _ _

theorem wrapped_length_eq_specLineCount (measure : String → Int)
    (usable : Int) (text : String) :
    ((text.splitOn "\n").map
        (fun p => wrapPara measure usable (p.splitOn " ") "")).flatten.length =
      specLineCount measure usable text := by
  unfold specLineCount
  induction text.splitOn "\n" with
  | nil => simp
  | cons p ps ih =>
      simp only [List.map_cons, List.flatten_cons, List.length_append,
        List.sum_cons, ih]
      have := packStep_foldl measure usable (p.splitOn " ") "" 0
      omega

/-! ## Page compositor (src/comic-scraper.js lines 216-277)

generateImage loads the page image, builds a caption canvas for every
top/bottom block with non-empty merged text, sizes the output canvas to
image width x (image height + caption heights), fills the background,
and draws top blocks, the image, and bottom blocks at cumulative y
offsets.  The output canvas is modelled as its dimensions plus the
ordered list of drawing operations issued against the 2D context. -/

/-- One drawing operation on the output canvas: the initial background
fillRect (line 252-253), a caption canvas drawn at a y offset
(lines 256-259, 264-267), or the page image drawn at a y offset
(line 261). -/
inductive DrawOp where
  | fillRect (style : String) (w h : Int)
  | drawBlock (b : WrapResult) (y : Int)
  | drawImage (w h : Int) (y : Int)
deriving DecidableEq

/-- The composited output canvas: dimensions and the issued drawing
operations, in order. -/
structure Composite where
  width : Int
  height : Int
  ops : List DrawOp
deriving DecidableEq

/-- The rendering environment collaborators: image dimensions by image
URL, ctx.measureText under a font, canvas.toBlob plus blobToBase64 as an
abstract encoding of a composited canvas to cached base64 char codes, and
whether zip assembly plus delivery succeeds. -/
structure PageEnv where
  dims : String → Int × Int
  measure : String → String → Int
  encode : Composite → List Nat
  deliveryOk : Bool

/-- JS `a || b` for an optional string: undefined and the empty string
are falsy. -/
def jsOrString (o : Option String) (dflt : String) : String :=
  match o with
  | none => dflt
  | some s => if s = "" then dflt else s

/-- The caption-collecting loops of generateImage (lines 235-248): skip
blocks with falsy merged text, otherwise wrap and accumulate the canvas
height and the canvas itself. -/
def collectBlocks (measure : String → String → Int) (iw : Int)
    (acc : Int × List WrapResult) (t : TextSpec) : Int × List WrapResult :=
  if t.text ≠ "" then
    let c := createWrappedTextCanvas measure iw t
    (acc.1 + c.canvasHeight, acc.2 ++ [c])
  else acc

/-- The caption-painting loops of generateImage (lines 256-259 and
264-267): draw each collected canvas at the running y offset. -/
def paintBlocks (acc : List DrawOp × Int) (c : WrapResult) : List DrawOp × Int :=
  (acc.1 ++ [DrawOp.drawBlock c acc.2], acc.2 + c.canvasHeight)

/-- generateImage (lines 216-277): returns the cache filename
(pageNumber()) and the composited canvas. -/
def generateImage (env : PageEnv) (imageURL : String → String)
    (fillStyle : Option String) (topText bottomText : String → List TextSpecJS)
    (pageNumber : String → String) (url : String) : String × Composite :=
  let filename := pageNumber url
  let iw := (env.dims (imageURL url)).1
  let ih := (env.dims (imageURL url)).2
  let tops := ((topText url).map jsDefaultsText).foldl
    (collectBlocks env.measure iw) ((0 : Int), ([] : List WrapResult))
  let bottoms := ((bottomText url).map jsDefaultsText).foldl
    (collectBlocks env.measure iw) ((0 : Int), ([] : List WrapResult))
  let totalHeight := ih + tops.1 + bottoms.1
  let paintTops := tops.2.foldl paintBlocks (([] : List DrawOp), (0 : Int))
  let paintBottoms := bottoms.2.foldl paintBlocks
    (([] : List DrawOp), paintTops.2 + ih)
  (filename,
   { width := iw, height := totalHeight,
     ops := DrawOp.fillRect (jsOrString fillStyle "#FFFFFF") iw totalHeight ::
       (paintTops.1 ++ (DrawOp.drawImage iw ih paintTops.2 :: paintBottoms.1)) })

/-- Specification-side layout: the blocks drawn top to bottom starting at
a given y offset, each at the running sum of the preceding heights. -/
def specOps : List WrapResult → Int → List DrawOp
  | [], _ => []
  | b :: rest, y => DrawOp.drawBlock b y :: specOps rest (y + b.canvasHeight)

/-- Specification-side selection: exactly the blocks whose merged text is
non-empty, wrapped against the image width. -/
def nonEmptyCanvases (measure : String → String → Int) (iw : Int)
    (blocks : List TextSpecJS) : List WrapResult :=
  ((blocks.map jsDefaultsText).filter (fun t => t.text ≠ "")).map
    (createWrappedTextCanvas measure iw)

/-- Composition as described by the specification: width of the source
image, height = image height + sum of the non-empty block heights, a
whole-canvas background fill (solid white when the adapter gives no
fillStyle) first, then each top block in order, the image, and each
bottom block in order at cumulative offsets. -/
def specCompose (env : PageEnv) (fillStyle : Option String)
    (tops bottoms : List TextSpecJS) (iw ih : Int) : Composite :=
  let tcs := nonEmptyCanvases env.measure iw tops
  let bcs := nonEmptyCanvases env.measure iw bottoms
  let th := (tcs.map (fun c => c.canvasHeight)).sum
  let bh := (bcs.map (fun c => c.canvasHeight)).sum
  { width := iw, height := ih + th + bh,
    ops := DrawOp.fillRect (jsOrString fillStyle "#FFFFFF") iw (ih + th + bh) ::
      (specOps tcs 0 ++ (DrawOp.drawImage iw ih th :: specOps bcs (th + ih))) }

theorem collectBlocks_foldl (measure : String → String → Int) (iw : Int) :
    ∀ (l : List TextSpec) (h0 : Int) (cs0 : List WrapResult),
      l.foldl (collectBlocks measure iw) (h0, cs0) =
        (h0 + (((l.filter (fun t => t.text ≠ "")).map
            (createWrappedTextCanvas measure iw)).map
              (fun c => c.canvasHeight)).sum,
         cs0 ++ (l.filter (fun t => t.text ≠ "")).map
            (createWrappedTextCanvas measure iw)) := by
  intro l
  induction l with
  | nil => intro h0 cs0; simp
  | cons t ts ih =>
      intro h0 cs0
      by_cases ht : t.text = ""
      · simp only [List.foldl_cons, collectBlocks, ht, ne_eq,
          not_true_eq_false, if_false, ite_false, List.filter_cons]
        rw [ih]
        simp [ht]
      · simp only [List.foldl_cons, collectBlocks, ne_eq, List.filter_cons]
        rw [if_pos ht, ih]
        simp [ht]
        ring

theorem paintBlocks_foldl :
    ∀ (cs : List WrapResult) (ops0 : List DrawOp) (y0 : Int),
      cs.foldl paintBlocks (ops0, y0) =
        (ops0 ++ specOps cs y0, y0 + (cs.map (fun c => c.canvasHeight)).sum) := by
  intro cs
  induction cs with
  | nil => intro ops0 y0; simp [specOps]
  | cons c cs ih =>
      intro ops0 y0
      simp only [List.foldl_cons, paintBlocks, specOps]
      rw [ih]
      simp only [List.map_cons, List.sum_cons, List.append_assoc,
        List.singleton_append, Prod.mk.injEq]
      exact ⟨trivial, by ring⟩

/-- C8: the composited canvas has the source image width, height equal
to the image height plus the heights of exactly the non-empty resolved
blocks, is filled whole with the adapter fillStyle (solid white when
unspecified or empty) before any drawing, and paints each top block in
order, then the page image, then each bottom block in order, at
cumulative offsets: generateImage equals the specification-side
composition. -/
theorem generateImage_eq_specCompose (env : PageEnv)
    (imageURL : String → String) (fillStyle : Option String)
    (topText bottomText : String → List TextSpecJS)
    (pageNumber : String → String) (url : String) :
    (generateImage env imageURL fillStyle topText bottomText pageNumber url).2 =
      specCompose env fillStyle (topText url) (bottomText url)
        (env.dims (imageURL url)).1 (env.dims (imageURL url)).2 := by
  simp only [generateImage, specCompose, nonEmptyCanvases,
    collectBlocks_foldl, paintBlocks_foldl, List.nil_append, zero_add]

/-! ## Adapter configs and resolution (src/comic-scraper.js lines 60-64
and 284-291)

A registered comic config carries a URL pattern and capability
functions.  The DOM the capabilities read is a function of the current
URL, so each capability is modelled as a function of the URL.  The URL
regex is modelled as a boolean predicate on the URL.  processPage finds
the first matching config and then applies lodash defaults against
defaultConfig, which assigns the missing optional fields onto the found
registry object itself (lodash defaults mutates its first argument); the
registry after this in-place update is tracked explicitly.  A fresh page
load re-creates the registry from the source literal, so the mutation
does not survive a navigation. -/

/-- One registered comic configuration.  nextPageURL returns none for a
falsy result (undefined); a self link is returned as some of the current
URL. -/
structure Config where
  name : String
  urlMatch : String → Bool
  bookName : Option String × Option String → String
  pageNumber : String → String
  nextPageURL : String → Option String
  imageURL : String → String
  pageLoaded : Option (String → Bool) := none
  topText : Option (String → List TextSpecJS) := none
  bottomText : Option (String → List TextSpecJS) := none
  fillStyle : Option String := none

/-- lodash defaults of a found config against defaultConfig (source
lines 60-64 and 290): missing pageLoaded, topText and bottomText receive
the no-op defaults; present fields are untouched. -/
def jsDefaultsConfig (c : Config) : Config :=
  { c with
    pageLoaded := some (c.pageLoaded.getD (fun _ => true)),
    topText := some (c.topText.getD (fun _ => [])),
    bottomText := some (c.bottomText.getD (fun _ => [])) }

/-- Adapter resolution with the in-place default merge (lines 285-290):
returns the merged config (or none when no pattern matches) together
with the registry as it stands afterwards, in which the found entry has
been mutated by the merge. -/
def resolveStep (configs : List Config) (url : String) :
    Option Config × List Config :=
  match configs.findIdx? (fun c => c.urlMatch url) with
  | none => (none, configs)
  | some i =>
      match configs[i]? with
      | none => (none, configs)
      | some c0 =>
          let c := jsDefaultsConfig c0
          (some c, configs.set i c)

/-! ## Durable store, run state and the traversal controller
(src/comic-scraper.js lines 279-321, 349-355, 383-385)

sessionStorage holds the JSON run state under the key archivalState and
one base64 entry per cached page; it is modelled with those two
key spaces separated.  processPage is modelled from the point where the
parsed run state is in hand (the source destructures pageCount and
images at line 282; every modelled entry point stores a state first, so
the state is present whenever processPage runs).  The startPage field
written by startArchival is dropped by the first navigation write
(line 319 stores only pageCount and images) and is never read, so it is
elided from the model. -/

/-- The persisted run state: the remaining page budget and the ordered
page identifiers processed so far. -/
structure RunState where
  pageCount : Int
  images : List String
deriving DecidableEq

/-- The session store: the parsed archivalState entry plus the cached
base64 page entries keyed by filename. -/
structure Store where
  runState : Option RunState
  pages : String → Option (List Nat)

/-- Externally visible effects of the controller, in program order:
console logging, a cached page write (setItem filename), a run-state
write (setItem archivalState), triggering navigation
(window.location.href assignment), invoking archive generation, and the
completed download. -/
inductive Event where
  | log (msg : String)
  | cachePage (key : String) (bytes : List Nat)
  | writeState (s : RunState)
  | navigate (url : String)
  | buildArchive (images : List String)
  | download (filename : String)
deriving DecidableEq

/-- The log line of the no-matching-config branch (line 287),
paraphrased. -/
def noConfigMsg : String := "no matching configuration for this page"

/-- Outcome of the Deciding step (lines 303-316). -/
inductive Decision where
  | finalize
  | navigate (url : String)
deriving DecidableEq

/-- The Deciding step of processPage (lines 303-316): finalize when the
next link is falsy (undefined or empty) or equals the current location;
otherwise finalize when pageCount is at most 1, else navigate. -/
def decideStep (pageCount : Int) (href : String) (nextLink : Option String) :
    Decision :=
  match nextLink with
  | none => Decision.finalize
  | some s =>
      if s = "" ∨ s = href then Decision.finalize
      else if pageCount ≤ 1 then Decision.finalize
      else Decision.navigate s

/-- Zip entries, remaining cached pages, and the first/last page keys
actually found, as accumulated by the drain loop of generateCBZ
(lines 327-336). -/
structure DrainState where
  entries : List (String × List Nat)
  pages : String → Option (List Nat)
  first : Option String
  last : Option String

/-- One iteration of the generateCBZ forEach (lines 328-336): a found
cached page becomes a zip entry named filename.jpg with the decoded
blob, updates firstPage/lastPage, and is removed from the store; a
missing page is skipped. -/
def cbzStep (d : DrainState) (filename : String) : DrainState :=
  match d.pages filename with
  | some b64 =>
      { entries := d.entries ++ [(filename ++ ".jpg", base64ToBlob b64)],
        pages := fun k => if k = filename then none else d.pages k,
        first := some (d.first.getD filename),
        last := some filename }
  | none => d

/-- The synchronous drain phase of generateCBZ (lines 327-336), run
before zip.generateAsync and before any delivery. -/
def cbzDrain (images : List String) (pages0 : String → Option (List Nat)) :
    DrainState :=
  images.foldl cbzStep
    { entries := [], pages := pages0, first := none, last := none }

/-- generateCBZ (lines 323-347): drain the cached pages into zip entries
(evicting each as it is consumed), then asynchronously assemble and
deliver; only when delivery succeeds does the continuation at
lines 338-345 run, which removes archivalState after the download. -/
def generateCBZModel (images : List String) (store : Store)
    (deliveryOk : Bool) (bookName : Option String × Option String → String) :
    Store × List Event :=
  let d := cbzDrain images store.pages
  ({ runState := if deliveryOk then none else store.runState,
     pages := d.pages },
   Event.buildArchive images ::
     if deliveryOk then
       [Event.download (bookName (d.first, d.last) ++ ".cbz")]
     else [])

/-- Result of one processPage execution: the store afterwards, the
effects in order, the registry afterwards, and the navigation target
when the Deciding step chose to continue. -/
structure StepResult where
  store : Store
  events : List Event
  registry : List Config
  next : Option String

/-- processPage (lines 279-321), from the point where the parsed run
state st is in hand: resolve the adapter (mutating the registry in
place), generate and cache the composited page, append the page
identifier, then decide: finalize via generateCBZ, or persist the
decremented state and navigate.  waitForIt(pageLoaded) suspends without
store effects and is modelled as already ready. -/
def processPageWithState (configs : List Config) (env : PageEnv)
    (st : RunState) (url : String) (store : Store) : StepResult :=
  match resolveStep configs url with
  | (none, cfgs) =>
      { store := store, events := [Event.log noConfigMsg],
        registry := cfgs, next := none }
  | (some cfg, cfgs) =>
      let gen := generateImage env cfg.imageURL cfg.fillStyle
        (cfg.topText.getD (fun _ => [])) (cfg.bottomText.getD (fun _ => []))
        cfg.pageNumber url
      let filename := gen.1
      let bytes := env.encode gen.2
      let store1 : Store :=
        { store with pages := fun k => if k = filename then some bytes else store.pages k }
      let images := st.images ++ [filename]
      match decideStep st.pageCount url (cfg.nextPageURL url) with
      | Decision.finalize =>
          let z := generateCBZModel images store1 env.deliveryOk cfg.bookName
          { store := z.1, events := Event.cachePage filename bytes :: z.2,
            registry := cfgs, next := none }
      | Decision.navigate nextUrl =>
          let st2 : RunState := { pageCount := st.pageCount - 1, images := images }
          { store := { store1 with runState := some st2 },
            events := [Event.cachePage filename bytes, Event.writeState st2,
              Event.navigate nextUrl],
            registry := cfgs, next := some nextUrl }

/-- The store as startArchival leaves it before processing the first
page: cleared, with the fresh run state written. -/
def initialStore (pageCount : Int) : Store :=
  { runState := some { pageCount := pageCount, images := [] },
    pages := fun _ => none }

/-- startArchival (lines 349-355): clear the store, write the fresh run
state (the budget and an empty image list), then run processPage on the
current page. -/
def startArchival (configs : List Config) (env : PageEnv) (pageCount : Int)
    (url : String) : StepResult :=
  processPageWithState configs env { pageCount := pageCount, images := [] }
    url (initialStore pageCount)

theorem decideStep_navigate_facts {pc : Int} {href : String}
    {next : Option String} {u : String}
    (h : decideStep pc href next = Decision.navigate u) :
    1 < pc ∧ next = some u ∧ u ≠ "" ∧ u ≠ href := by
  match next with
  | none => simp [decideStep] at h
  | some s =>
      simp only [decideStep] at h
      by_cases h1 : s = "" ∨ s = href
      · rw [if_pos h1] at h; exact absurd h (by simp)
      · rw [if_neg h1] at h
        by_cases h2 : pc ≤ 1
        · rw [if_pos h2] at h; exact absurd h (by simp)
        · rw [if_neg h2] at h
          have hu : s = u := by injection h
          subst hu
          push_neg at h1
          exact ⟨by omega, rfl, h1.1, h1.2⟩

/-- Shorthand: the cache filename computed by generateImage for a
resolved config at a URL. -/
def pageFilename (env : PageEnv) (cfg : Config) (url : String) : String :=
  (generateImage env cfg.imageURL cfg.fillStyle
    (cfg.topText.getD (fun _ => [])) (cfg.bottomText.getD (fun _ => []))
    cfg.pageNumber url).1

/-- Shorthand: the encoded bytes cached by generateImage for a resolved
config at a URL. -/
def pageBytes (env : PageEnv) (cfg : Config) (url : String) : List Nat :=
  env.encode (generateImage env cfg.imageURL cfg.fillStyle
    (cfg.topText.getD (fun _ => [])) (cfg.bottomText.getD (fun _ => []))
    cfg.pageNumber url).2

/-- Shorthand: the run state persisted on a navigation, with the budget
decremented and the page identifier appended. -/
def nextRunState (st : RunState) (fn : String) : RunState :=
  { pageCount := st.pageCount - 1, images := st.images ++ [fn] }

/-- Shorthand: the store after generateImage caches the encoded page
under its filename. -/
def cacheWrite (store : Store) (fn : String) (bytes : List Nat) : Store :=
  { store with pages := fun k => if k = fn then some bytes else store.pages k }

theorem processPage_none_eq (configs : List Config) (env : PageEnv)
    (st : RunState) (url : String) (store : Store) (cfgs : List Config)
    (hr : resolveStep configs url = (none, cfgs)) :
    processPageWithState configs env st url store =
      { store := store, events := [Event.log noConfigMsg],
        registry := cfgs, next := none } := by
  unfold processPageWithState
  rw [hr]

theorem processPage_finalize_eq (configs : List Config) (env : PageEnv)
    (st : RunState) (url : String) (store : Store) (cfg : Config)
    (cfgs : List Config)
    (hr : resolveStep configs url = (some cfg, cfgs))
    (hd : decideStep st.pageCount url (cfg.nextPageURL url) =
      Decision.finalize) :
    processPageWithState configs env st url store =
      { store := (generateCBZModel (st.images ++ [pageFilename env cfg url])
          (cacheWrite store (pageFilename env cfg url) (pageBytes env cfg url))
          env.deliveryOk cfg.bookName).1,
        events := Event.cachePage (pageFilename env cfg url)
            (pageBytes env cfg url) ::
          (generateCBZModel (st.images ++ [pageFilename env cfg url])
            (cacheWrite store (pageFilename env cfg url) (pageBytes env cfg url))
            env.deliveryOk cfg.bookName).2,
        registry := cfgs, next := none } := by
  unfold processPageWithState
  rw [hr]
  dsimp only
  rw [hd]
  rfl

theorem processPage_navigate_eq (configs : List Config) (env : PageEnv)
    (st : RunState) (url : String) (store : Store) (cfg : Config)
    (cfgs : List Config) (v : String)
    (hr : resolveStep configs url = (some cfg, cfgs))
    (hd : decideStep st.pageCount url (cfg.nextPageURL url) =
      Decision.navigate v) :
    processPageWithState configs env st url store =
      { store := { cacheWrite store (pageFilename env cfg url)
            (pageBytes env cfg url) with
          runState := some (nextRunState st (pageFilename env cfg url)) },
        events := [Event.cachePage (pageFilename env cfg url)
            (pageBytes env cfg url),
          Event.writeState (nextRunState st (pageFilename env cfg url)),
          Event.navigate v],
        registry := cfgs, next := some v } := by
  unfold processPageWithState
  rw [hr]
  dsimp only
  rw [hd]
  rfl

theorem processPage_next_some (configs : List Config) (env : PageEnv)
    (st : RunState) (url : String) (store : Store) (u : String)
    (h : (processPageWithState configs env st url store).next = some u) :
    1 < st.pageCount ∧
      ∃ imgs, (processPageWithState configs env st url store).store.runState =
        some { pageCount := st.pageCount - 1, images := imgs } := by
  rcases hco : resolveStep configs url with ⟨oc, cfgs⟩
  cases oc with
  | none =>
      rw [processPage_none_eq configs env st url store cfgs hco] at h
      simp at h
  | some cfg =>
      cases hd : decideStep st.pageCount url (cfg.nextPageURL url) with
      | finalize =>
          rw [processPage_finalize_eq configs env st url store cfg cfgs hco hd] at h
          simp at h
      | navigate v =>
          rw [processPage_navigate_eq configs env st url store cfg cfgs v hco hd]
          exact ⟨(decideStep_navigate_facts hd).1,
            st.images ++ [pageFilename env cfg url], rfl⟩

/-- Termination measure of the cross-navigation loop: the remaining page
budget recorded in the store. -/
def storeMeasure (s : Store) : Nat :=
  (s.runState.map (fun st => st.pageCount.toNat)).getD 0

/-- The cross-navigation traversal: on every environment load the script
resumes processPage while the store holds a run state (lines 383-385);
each navigation re-runs processPage at the new location with the
persisted state and the registry re-created from the source literal.
The loop terminates because every navigation decrements the persisted
positive budget. -/
def runLoop (configs : List Config) (env : PageEnv) (store : Store)
    (url : String) : Store × List Event :=
  match h1 : store.runState with
  | none => (store, [])
  | some st =>
      let r := processPageWithState configs env st url store
      match hnext : r.next with
      | none => (r.store, r.events)
      | some nextUrl =>
          let rest := runLoop configs env r.store nextUrl
          (rest.1, r.events ++ rest.2)
  termination_by storeMeasure store
  decreasing_by
    obtain ⟨hpc, imgs, hs⟩ := processPage_next_some _ _ _ _ _ _ hnext
    simp only [storeMeasure, hs, h1, Option.map_some', Option.getD_some]
    omega

/-- A complete run started with a given budget: startArchival writes the
fresh run state and processes the first page, and the resume hook at
lines 383-385 continues after each navigation. -/
def fullRun (configs : List Config) (env : PageEnv) (pageCount : Int)
    (url : String) : Store × List Event :=
  runLoop configs env (initialStore pageCount) url

theorem runLoop_none (configs : List Config) (env : PageEnv) (store : Store)
    (url : String) (h1 : store.runState = none) :
    runLoop configs env store url = (store, []) := by
  conv_lhs => unfold runLoop
  split
  · rfl
  · rename_i st heq
    rw [h1] at heq
    cases heq

theorem runLoop_finalize (configs : List Config) (env : PageEnv)
    (store : Store) (url : String) (st : RunState)
    (h1 : store.runState = some st)
    (h2 : (processPageWithState configs env st url store).next = none) :
    runLoop configs env store url =
      ((processPageWithState configs env st url store).store,
       (processPageWithState configs env st url store).events) := by
  conv_lhs => unfold runLoop
  split
  · rename_i heq
    rw [h1] at heq
    cases heq
  · rename_i st2 heq
    rw [h1] at heq
    injection heq with hst
    subst hst
    dsimp only
    split
    · rfl
    · rename_i nextUrl heq2
      rw [h2] at heq2
      cases heq2

theorem runLoop_continue (configs : List Config) (env : PageEnv)
    (store : Store) (url : String) (st : RunState) (nextUrl : String)
    (h1 : store.runState = some st)
    (h2 : (processPageWithState configs env st url store).next = some nextUrl) :
    runLoop configs env store url =
      ((runLoop configs env
          (processPageWithState configs env st url store).store nextUrl).1,
       (processPageWithState configs env st url store).events ++
         (runLoop configs env
           (processPageWithState configs env st url store).store nextUrl).2) := by
  conv_lhs => unfold runLoop
  split
  · rename_i heq
    rw [h1] at heq
    cases heq
  · rename_i st2 heq
    rw [h1] at heq
    injection heq with hst
    subst hst
    dsimp only
    split
    · rename_i heq2
      rw [h2] at heq2
      cases heq2
    · rename_i nextUrl2 heq2
      rw [h2] at heq2
      injection heq2 with hn
      subst hn
      rfl

/-- Budget invariant, phrased over every event the run emits: every
persisted image list and every finalized image list stays within the
bound given by the entering state. -/
theorem runLoop_images_bound :
    ∀ (fuel : Nat) (configs : List Config) (env : PageEnv) (store : Store)
      (url : String) (st : RunState),
      store.runState = some st → storeMeasure store ≤ fuel →
      1 ≤ st.pageCount →
      ∀ e ∈ (runLoop configs env store url).2,
        (∀ imgs, e = Event.buildArchive imgs →
          imgs.length ≤ st.images.length + st.pageCount.toNat) ∧
        (∀ s2, e = Event.writeState s2 →
          s2.images.length ≤ st.images.length + st.pageCount.toNat) := by
  intro fuel
  induction fuel with
  | zero =>
      intro configs env store url st h1 hm hpc e he
      exfalso
      simp only [storeMeasure, h1, Option.map_some', Option.getD_some] at hm
      omega
  | succ fuel ih =>
      intro configs env store url st h1 hm hpc e he
      rcases hco : resolveStep configs url with ⟨oc, cfgs⟩
      cases oc with
      | none =>
          have hp := processPage_none_eq configs env st url store cfgs hco
          have hn : (processPageWithState configs env st url store).next = none := by
            rw [hp]
          rw [runLoop_finalize configs env store url st h1 hn, hp] at he
          simp only [List.mem_singleton] at he
          subst he
          exact ⟨fun imgs hh => by simp at hh, fun s2 hh => by simp at hh⟩
      | some cfg =>
          cases hd : decideStep st.pageCount url (cfg.nextPageURL url) with
          | finalize =>
              have hp := processPage_finalize_eq configs env st url store cfg
                cfgs hco hd
              have hn : (processPageWithState configs env st url store).next = none := by
                rw [hp]
              rw [runLoop_finalize configs env store url st h1 hn, hp] at he
              simp only [generateCBZModel, List.mem_cons] at he
              rcases he with rfl | he
              · exact ⟨fun imgs hh => by simp at hh, fun s2 hh => by simp at hh⟩
              rcases he with rfl | he
              · refine ⟨fun imgs hh => ?_, fun s2 hh => by simp at hh⟩
                have himgs : imgs = st.images ++ [pageFilename env cfg url] := by
                  injection hh.symm
                subst himgs
                simp only [List.length_append, List.length_singleton]
                omega
              · cases henv : env.deliveryOk
                · rw [henv] at he
                  simp at he
                · rw [henv] at he
                  simp at he
                  subst he
                  exact ⟨fun imgs hh => by simp at hh, fun s2 hh => by simp at hh⟩
          | navigate v =>
              have hp := processPage_navigate_eq configs env st url store cfg
                cfgs v hco hd
              have hn : (processPageWithState configs env st url store).next =
                  some v := by rw [hp]
              rw [runLoop_continue configs env store url st v h1 hn, hp] at he
              have hpc2 : 1 < st.pageCount := (decideStep_navigate_facts hd).1
              rcases List.mem_append.mp he with he1 | he2
              · simp only [List.mem_cons, List.mem_singleton,
                  List.not_mem_nil, or_false] at he1
                rcases he1 with rfl | rfl | rfl
                · exact ⟨fun imgs hh => by simp at hh,
                    fun s2 hh => by simp at hh⟩
                · refine ⟨fun imgs hh => by simp at hh, fun s2 hh => ?_⟩
                  have hs2 : s2 = nextRunState st (pageFilename env cfg url) := by
                    injection hh.symm
                  subst hs2
                  simp only [nextRunState, List.length_append,
                    List.length_singleton]
                  omega
                · exact ⟨fun imgs hh => by simp at hh,
                    fun s2 hh => by simp at hh⟩
              · have h1b : ({ cacheWrite store (pageFilename env cfg url)
                    (pageBytes env cfg url) with
                    runState := some (nextRunState st (pageFilename env cfg url)) } :
                      Store).runState =
                    some (nextRunState st (pageFilename env cfg url)) := rfl
                have hmb : storeMeasure ({ cacheWrite store
                    (pageFilename env cfg url) (pageBytes env cfg url) with
                    runState := some (nextRunState st (pageFilename env cfg url)) } :
                      Store) ≤ fuel := by
                  simp only [storeMeasure, h1, Option.map_some',
                    Option.getD_some] at hm
                  simp only [storeMeasure, Option.map_some', Option.getD_some,
                    nextRunState]
                  omega
                have hpcb : 1 ≤ (nextRunState st (pageFilename env cfg url)).pageCount := by
                  simp only [nextRunState]
                  omega
                have hb := ih configs env _ v _ h1b hmb hpcb e he2
                obtain ⟨hb1, hb2⟩ := hb
                refine ⟨fun imgs hh => ?_, fun s2 hh => ?_⟩
                · have := hb1 imgs hh
                  simp only [nextRunState, List.length_append,
                    List.length_singleton] at this
                  omega
                · have := hb2 s2 hh
                  simp only [nextRunState, List.length_append,
                    List.length_singleton] at this
                  omega

theorem cbzStep_foldl_pages :
    ∀ (images : List String) (d : DrainState) (k : String),
      ((images.foldl cbzStep d).pages k) =
        if k ∈ images then none else d.pages k := by
  intro images
  induction images with
  | nil => intro d k; simp
  | cons f rest ih =>
      intro d k
      simp only [List.foldl_cons]
      rw [ih]
      by_cases hk : k = f
      · subst hk
        simp only [List.mem_cons, true_or, if_true]
        by_cases hkr : k ∈ rest
        · simp [hkr]
        · simp only [hkr, if_neg, ite_false]
          rcases hdf : d.pages k with _ | b <;> simp [cbzStep, hdf]
      · have hstep : (cbzStep d f).pages k = d.pages k := by
          rcases hdf : d.pages f with _ | b <;> simp [cbzStep, hdf, hk]
        rw [hstep]
        simp only [List.mem_cons]
        by_cases hkr : k ∈ rest <;> simp [hk, hkr]

theorem list_set_self {α : Type} :
    ∀ (l : List α) (i : Nat) (c : α), l[i]? = some c → l.set i c = l := by
  intro l
  induction l with
  | nil => intro i c h; simp at h
  | cons a as ih =>
      intro i c h
      cases i with
      | zero =>
          simp only [List.getElem?_cons_zero, Option.some.injEq] at h
          subst h
          rfl
      | succ i =>
          simp only [List.getElem?_cons_succ] at h
          show a :: as.set i c = a :: as
          rw [ih i c h]

/-! ## Concrete instances used by witnesses and counterexamples -/

/-- A trivial rendering environment: fixed image dimensions, constant
text measure, empty encoding, failing delivery. -/
def demoEnv : PageEnv :=
  { dims := fun _ => (10, 20), measure := fun _ _ => 5,
    encode := fun _ => [], deliveryOk := false }

/-- A config that matches every URL and reports no next page. -/
def demoCfg : Config :=
  { name := "demo", urlMatch := fun _ => true, bookName := fun _ => "Book",
    pageNumber := fun _ => "p1", nextPageURL := fun _ => none,
    imageURL := fun u => u, pageLoaded := some (fun _ => true),
    topText := some (fun _ => []), bottomText := some (fun _ => []) }

/-- A config that matches every URL and always reports "next" as the
next page. -/
def demoCfgNav : Config :=
  { name := "nav", urlMatch := fun _ => true, bookName := fun _ => "Book",
    pageNumber := fun _ => "p1", nextPageURL := fun _ => some "next",
    imageURL := fun u => u, pageLoaded := some (fun _ => true),
    topText := some (fun _ => []), bottomText := some (fun _ => []) }

/-- A config whose URL pattern matches nothing. -/
def demoCfgNoMatch : Config :=
  { name := "nomatch", urlMatch := fun _ => false,
    bookName := fun _ => "Book", pageNumber := fun _ => "p1",
    nextPageURL := fun _ => none, imageURL := fun u => u }

/-- A config missing all optional capability fields, like the registered
Paranatural entry (no pageLoaded, no topText). -/
def demoCfgMissing : Config :=
  { name := "missing", urlMatch := fun _ => true,
    bookName := fun _ => "Book", pageNumber := fun _ => "p1",
    nextPageURL := fun _ => none, imageURL := fun u => u }

/-- A config carrying all optional capability fields. -/
def demoCfgComplete : Config :=
  { name := "complete", urlMatch := fun _ => true,
    bookName := fun _ => "Book", pageNumber := fun _ => "p1",
    nextPageURL := fun _ => none, imageURL := fun u => u,
    pageLoaded := some (fun _ => true), topText := some (fun _ => []),
    bottomText := some (fun _ => []) }

/-- An empty session store. -/
def demoStore : Store := { runState := none, pages := fun _ => none }

/-- A store holding one cached page entry under the key p1. -/
def demoPagesStore : Store :=
  { runState := none,
    pages := fun k => if k = "p1" then some [81, 81, 61, 61] else none }

/-- The event trace of a one-page demo run with budget 2: the page is
cached and the archive is built from the single page. -/
theorem demo_trace :
    (fullRun [demoCfg] demoEnv 2 "u").2 =
      [Event.cachePage "p1" [], Event.buildArchive ["p1"]] := by
  have hr : resolveStep [demoCfg] "u" =
      (some (jsDefaultsConfig demoCfg), [jsDefaultsConfig demoCfg]) := rfl
  have hd : decideStep (2 : Int) "u"
      ((jsDefaultsConfig demoCfg).nextPageURL "u") = Decision.finalize := rfl
  have hp := processPage_finalize_eq [demoCfg] demoEnv
    { pageCount := 2, images := [] } "u" (initialStore 2)
    (jsDefaultsConfig demoCfg) [jsDefaultsConfig demoCfg] hr hd
  have hn : (processPageWithState [demoCfg] demoEnv
      { pageCount := 2, images := [] } "u" (initialStore 2)).next = none := by
    rw [hp]
  show (runLoop [demoCfg] demoEnv (initialStore 2) "u").2 = _
  rw [runLoop_finalize [demoCfg] demoEnv (initialStore 2) "u"
    { pageCount := 2, images := [] } rfl hn, hp]
  rfl

/-! ## Claims -/

/-- C1 (counterexample): with budget 2 before decrement and a valid next
URL different from the current location, the Deciding step does not
transition to Finalizing (it navigates), contradicting the claim that
the stop condition fires when the remaining budget after this page would
be at most 1. -/
theorem budget_two_navigates :
    decideStep 2 "a" (some "b") ≠ Decision.finalize := by
  decide

/-- C1 (amended): the Deciding step transitions to Finalizing exactly
when the next link is absent or empty, or equals the current location,
or the budget before decrement is at most 1 (the remaining budget after
this page would be at most 0); with budget 2 before decrement and a
valid distinct next URL it navigates. -/
theorem finalize_iff_stop_condition (pc : Int) (href : String)
    (next : Option String) :
    decideStep pc href next = Decision.finalize ↔
      next = none ∨ next = some "" ∨ next = some href ∨ pc ≤ 1 := by
  cases next with
  | none => simp [decideStep]
  | some s =>
      show (if s = "" ∨ s = href then Decision.finalize
        else if pc ≤ 1 then Decision.finalize
        else Decision.navigate s) = Decision.finalize ↔ _
      split_ifs with h1 h2
      · constructor
        · intro _
          rcases h1 with rfl | rfl
          · exact Or.inr (Or.inl rfl)
          · exact Or.inr (Or.inr (Or.inl rfl))
        · intro _; rfl
      · constructor
        · intro _
          exact Or.inr (Or.inr (Or.inr h2))
        · intro _; rfl
      · constructor
        · intro h
          exact absurd h (by simp)
        · intro h
          rcases h with h | h | h | h
          · cases h
          · injection h with h3
            exact absurd (Or.inl h3) h1
          · injection h with h3
            exact absurd (Or.inr h3) h1
          · exact absurd h h2

/-- C2: for every run started with an integer budget of at least 1,
every image list the run finalizes (buildArchive) and every image list
it persists (writeState) across all navigations and resumes has length
at most the budget. -/
theorem images_bounded_by_budget (configs : List Config) (env : PageEnv)
    (n : Int) (url : String) (hn : 1 ≤ n) :
    ∀ e ∈ (fullRun configs env n url).2,
      (∀ imgs, e = Event.buildArchive imgs → imgs.length ≤ n.toNat) ∧
      (∀ s2, e = Event.writeState s2 → s2.images.length ≤ n.toNat) := by
  intro e he
  have he2 : e ∈ (runLoop configs env (initialStore n) url).2 := he
  have hb := runLoop_images_bound (storeMeasure (initialStore n)) configs env
    (initialStore n) url { pageCount := n, images := [] } rfl le_rfl hn e he2
  simpa using hb

/-- C2 (witness): in a concrete one-page run with budget 2, the
finalized image list respects the bound. -/
theorem images_bounded_by_budget_witness :
    (["p1"] : List String).length ≤ (2 : Int).toNat :=
  (images_bounded_by_budget [demoCfg] demoEnv 2 "u" (by norm_num)
    (Event.buildArchive ["p1"]) (by rw [demo_trace]; simp)).1 ["p1"] rfl

/-- C3: whenever nextPageURL() is falsy (absent or empty) or equals the
current location, the Deciding step finalizes, regardless of the
remaining budget. -/
theorem falsy_or_self_link_finalizes (pc : Int) (href : String)
    (next : Option String)
    (h : next = none ∨ next = some "" ∨ next = some href) :
    decideStep pc href next = Decision.finalize := by
  rcases h with rfl | rfl | rfl
  · rfl
  · simp [decideStep]
  · simp [decideStep]

/-- C3 (witness): a self link finalizes even with a huge budget. -/
theorem falsy_or_self_link_finalizes_witness :
    decideStep 100 "x" (some "x") = Decision.finalize :=
  falsy_or_self_link_finalizes 100 "x" (some "x") (Or.inr (Or.inr rfl))

/-- C4 (counterexample): starting a run on a URL no adapter matches does
log the failure and process nothing, but the run state HAS been written
to the durable store by startArchival before adapter resolution,
contradicting the claim that no run state is written. -/
theorem state_written_despite_no_adapter :
    (startArchival [] demoEnv 3 "u").events = [Event.log noConfigMsg] ∧
    (startArchival [] demoEnv 3 "u").store.runState =
      some { pageCount := 3, images := [] } :=
  ⟨rfl, rfl⟩

/-- C4 (amended): when no registered adapter matches the starting URL,
the failure is logged and traversal does not start (no page is
processed, no navigation occurs, the registry is untouched), but the
fresh run state written by startArchival before adapter resolution
remains in the durable store. -/
theorem no_adapter_logs_and_keeps_initial_state (configs : List Config)
    (env : PageEnv) (n : Int) (url : String)
    (h : ∀ c ∈ configs, c.urlMatch url = false) :
    startArchival configs env n url =
      { store := initialStore n, events := [Event.log noConfigMsg],
        registry := configs, next := none } := by
  have hidx : configs.findIdx? (fun c => c.urlMatch url) = none :=
    List.findIdx?_eq_none_iff.mpr h
  have hr : resolveStep configs url = (none, configs) := by
    unfold resolveStep
    rw [hidx]
  exact processPage_none_eq configs env
    { pageCount := n, images := [] } url (initialStore n) configs hr

/-- C4 (witness): a concrete start against a never-matching registry. -/
theorem no_adapter_logs_and_keeps_initial_state_witness :
    startArchival [demoCfgNoMatch] demoEnv 2 "u" =
      { store := initialStore 2, events := [Event.log noConfigMsg],
        registry := [demoCfgNoMatch], next := none } :=
  no_adapter_logs_and_keeps_initial_state [demoCfgNoMatch] demoEnv 2 "u"
    (by simp [demoCfgNoMatch])

/-- C5 (counterexample): a cached page present when the build starts is
gone after the drain phase even though delivery never happened,
contradicting the claim that cached pages are only cleared after
confirmed successful delivery. -/
theorem drain_evicts_before_delivery :
    demoPagesStore.pages "p1" = some [81, 81, 61, 61] ∧
    (generateCBZModel ["p1"] demoPagesStore false
      (fun _ => "Book")).1.pages "p1" = none :=
  ⟨rfl, rfl⟩

/-- C5 (amended): when archive assembly fails before delivery, the
cached entries for keys consumed by the drain have already been evicted
during assembly (retrying them would require re-scraping); exactly the
entries whose keys are not in the drained list survive, and the
run-state entry is preserved (it is removed only after confirmed
successful delivery). -/
theorem drain_store_characterization (images : List String) (store : Store)
    (bn : Option String × Option String → String) (k : String) :
    ((generateCBZModel images store false bn).1.pages k =
      if k ∈ images then none else store.pages k) ∧
    (generateCBZModel images store false bn).1.runState = store.runState := by
  constructor
  · show (cbzDrain images store.pages).pages k = _
    unfold cbzDrain
    exact cbzStep_foldl_pages images _ k
  · rfl

/-- C6: on every Navigating transition, the event trace of processPage
is exactly the page-cache write, then the persistence of the updated run
state (budget decremented by one, page identifier appended), then the
navigation trigger: the run-state write happens before navigation and
never after it, and the persisted store holds that same state. -/
theorem persist_then_navigate (configs : List Config) (env : PageEnv)
    (st : RunState) (url : String) (store : Store) (cfg : Config)
    (cfgs : List Config) (v : String)
    (hr : resolveStep configs url = (some cfg, cfgs))
    (hd : decideStep st.pageCount url (cfg.nextPageURL url) =
      Decision.navigate v) :
    (processPageWithState configs env st url store).events =
      [Event.cachePage (pageFilename env cfg url) (pageBytes env cfg url),
       Event.writeState (nextRunState st (pageFilename env cfg url)),
       Event.navigate v] ∧
    (processPageWithState configs env st url store).store.runState =
      some (nextRunState st (pageFilename env cfg url)) := by
  rw [processPage_navigate_eq configs env st url store cfg cfgs v hr hd]
  exact ⟨rfl, rfl⟩

/-- C6 (witness): a concrete navigating page processing. -/
theorem persist_then_navigate_witness :
    (processPageWithState [demoCfgNav] demoEnv
        { pageCount := 5, images := [] } "u" demoStore).events =
      [Event.cachePage (pageFilename demoEnv (jsDefaultsConfig demoCfgNav) "u")
         (pageBytes demoEnv (jsDefaultsConfig demoCfgNav) "u"),
       Event.writeState (nextRunState { pageCount := 5, images := [] }
         (pageFilename demoEnv (jsDefaultsConfig demoCfgNav) "u")),
       Event.navigate "next"] ∧
    (processPageWithState [demoCfgNav] demoEnv
        { pageCount := 5, images := [] } "u" demoStore).store.runState =
      some (nextRunState { pageCount := 5, images := [] }
        (pageFilename demoEnv (jsDefaultsConfig demoCfgNav) "u")) :=
  persist_then_navigate [demoCfgNav] demoEnv
    { pageCount := 5, images := [] } "u" demoStore
    (jsDefaultsConfig demoCfgNav) [jsDefaultsConfig demoCfgNav] "next"
    rfl rfl

/-- C7: the total raster height of the wrap operation equals
lineCount times lineHeight, plus the lineHeight minus fontSize headroom,
plus the vertical paddings, where lineCount is the line count of the
greedy word-packing (split on explicit newlines, pack while the measured
width does not exceed maxWidth minus the horizontal paddings, commit on
overflow, leave a single over-wide word as one overflowing line) as
described by the specification. -/
theorem wrap_height_formula (measureFont : String → String → Int)
    (maxWidth : Int) (s : TextSpec) :
    (createWrappedTextCanvas measureFont maxWidth s).totalHeight =
      (specLineCount (measureFont (fullFont s))
          (maxWidth - s.paddingLeft - s.paddingRight) s.text : Int) *
          s.lineHeight +
        (s.lineHeight - s.fontSize) + s.paddingTop + s.paddingBottom := by
  simp only [createWrappedTextCanvas]
  rw [wrapped_length_eq_specLineCount]
  ring

/-- C9 (counterexample): resolving a registry whose matched config is
missing optional capability fields changes the registered config object
(the default-merge assigns pageLoaded onto it in place), contradicting
the claim that no operation mutates a supplied adapter config. -/
theorem resolution_mutates_registry :
    (resolveStep [demoCfgMissing] "u").2 ≠ [demoCfgMissing] := by
  intro h
  have h0 : (resolveStep [demoCfgMissing] "u").2 =
      [jsDefaultsConfig demoCfgMissing] := rfl
  rw [h0] at h
  have h1 := congrArg
    (fun l => (l.headD demoCfgMissing).pageLoaded.isSome) h
  simp [jsDefaultsConfig, demoCfgMissing] at h1

/-- C9 (amended): adapter resolution leaves the registry unchanged
whenever every registered config already carries all optional capability
fields (pageLoaded, topText, bottomText); a matched config missing any
of them is mutated in place by the default-merge, as the counterexample
shows.  Fields already present are never overwritten. -/
theorem complete_configs_not_mutated (configs : List Config) (url : String)
    (h : ∀ c ∈ configs,
      c.pageLoaded.isSome ∧ c.topText.isSome ∧ c.bottomText.isSome) :
    (resolveStep configs url).2 = configs := by
  cases hidx : configs.findIdx? (fun c => c.urlMatch url) with
  | none => simp [resolveStep, hidx]
  | some i =>
      cases hget : configs[i]? with
      | none => simp [resolveStep, hidx, hget]
      | some c0 =>
          have hmem : c0 ∈ configs := List.getElem?_mem hget
          obtain ⟨hp, ht, hb⟩ := h c0 hmem
          obtain ⟨p, hp2⟩ := Option.isSome_iff_exists.mp hp
          obtain ⟨t, ht2⟩ := Option.isSome_iff_exists.mp ht
          obtain ⟨b, hb2⟩ := Option.isSome_iff_exists.mp hb
          have hdc : jsDefaultsConfig c0 = c0 := by
            unfold jsDefaultsConfig
            rw [hp2, ht2, hb2]
            simp only [Option.getD_some]
            rw [← hp2, ← ht2, ← hb2]
          simp only [resolveStep, hidx, hget]
          rw [hdc]
          exact list_set_self configs i c0 hget

/-- C9 (witness): a registry of one fully specified config is untouched
by resolution. -/
theorem complete_configs_not_mutated_witness :
    (resolveStep [demoCfgComplete] "u").2 = [demoCfgComplete] :=
  complete_configs_not_mutated [demoCfgComplete] "u"
    (by simp [demoCfgComplete])

/-- C10: encoding any byte sequence with blobToBase64 and decoding the
result with base64ToBlob returns exactly the original bytes (the base64
bridge across session-storage caching is lossless), for any blob MIME
type not containing a comma. -/
theorem base64_roundtrip (bytes btype : List Nat)
    (hb : ∀ b ∈ bytes, b < 256) (ht : 44 ∉ btype) :
    base64ToBlob (blobToBase64 bytes btype) = bytes := by
  rw [blobToBase64_eq bytes btype ht]
  unfold base64ToBlob
  rw [atobBytes_b64encode bytes hb]
  exact sliceChunks_flatten _ _ le_rfl

/-- C10 (witness): a concrete round trip through the jpeg MIME type. -/
theorem base64_roundtrip_witness :
    base64ToBlob (blobToBase64 [0, 77, 255, 10, 200]
      [105, 109, 97, 103, 101, 47, 106, 112, 101, 103]) =
      [0, 77, 255, 10, 200] :=
  base64_roundtrip _ _ (by decide) (by decide)

end ComicScraper
